import Mathlib

/-!
SurveillanceRPi, `motion_detect.c`.

A shallow embedding of `src/motion_detect.c` and the properties proved about it.

Conventions of the embedding

* A C string is a `List Char`: every element stands for one byte (its code is the
  `unsigned char` value) and the terminating NUL is the end of the list.
* `struct timeval` is `Timeval`, with `long` fields as `Int`.
* The wall clock is a number of microseconds (`Nat`).
* `unsigned long` has `w` bits; `w` is a parameter of every definition that
  computes in `unsigned long`.
* A `char *` is an address (`Nat`); what stands there is given by a memory `mem`.
-/

namespace MotionDetect

/-! ## Constants -/

/-- The constant `FIRST_SLEEP_SECONDS`. -/
def FIRST_SLEEP_SECONDS : Nat := 8

/-- The constant `MINIMUM_FREE_MBYTES`. -/
def MINIMUM_FREE_MBYTES : Nat := 500

/-- The constant `REC_DIR`. -/
def REC_DIR : List Char := "/root/records".toList

/-- The constant `RPIVID_PATH`. -/
def RPIVID_PATH : List Char := "/bin/raspivid".toList

/-- The signal number of `SIGINT`. -/
def SIGINT : Nat := 2

/-! ## Time values -/

/-- The C `struct timeval`. -/
structure Timeval where
  tv_sec : Int
  tv_usec : Int
deriving DecidableEq, Repr

/-- The `timersub(a, b, result)` of `<sys/time.h>`: field-wise difference with a borrow
from the seconds when the microseconds come out negative. -/
def timersub (a b : Timeval) : Timeval :=
  let sec := a.tv_sec - b.tv_sec
  let usec := a.tv_usec - b.tv_usec
  if usec < 0 then ⟨sec - 1, usec + 1000000⟩ else ⟨sec, usec⟩

/-- What `gettimeofday` stores when the clock shows `now` microseconds. -/
def gettimeofday (now : Nat) : Timeval :=
  ⟨((now / 1000000 : Nat) : Int), ((now % 1000000 : Nat) : Int)⟩

/-- Conversion of a `long` to `unsigned short`. -/
def toUShort (x : Int) : Int := x % 65536

/-- Conversion of a `long` to an `unsigned long` of `w` bits. -/
def toULong (w : Nat) (x : Int) : Nat := (x % (2 : Int) ^ w).toNat

/-! ## The output file name (lines 108-114) -/

/-- The conversion `%02d` of `printf`: decimal, at least two characters, padded with
zeros on the left; a negative number gets its sign and is never padded, as the sign
and one digit already fill the width. -/
def fmt02d (n : Int) : List Char :=
  if n < 0 then '-' :: Nat.toDigits 10 n.natAbs
  else
    let ds := Nat.toDigits 10 n.toNat
    if ds.length < 2 then '0' :: ds else ds

/-- The `day` of `motion_handler`, from `diff_tv.tv_sec`. -/
def day (tv_sec : Int) : Int := toUShort (tv_sec.tdiv (24 * 3600))

/-- The `hour` of `motion_handler`, from `diff_tv.tv_sec`. -/
def hour (tv_sec : Int) : Int := toUShort ((tv_sec.tdiv 3600).tmod 24)

/-- The `minute` of `motion_handler`, from `diff_tv.tv_sec`. -/
def minute (tv_sec : Int) : Int := toUShort ((tv_sec.tdiv 60).tmod 60)

/-- The text that
`sprintf(out_filename, "%s/rec_%02d_%02d-%02d-%02d.h264", REC_DIR, day+1, hour, minute, diff_tv.tv_sec % 60)`
produces for the elapsed time `diff_tv`. -/
def out_filename (diff_tv : Timeval) : List Char :=
  REC_DIR ++ "/rec_".toList ++ fmt02d (day diff_tv.tv_sec + 1) ++ "_".toList
    ++ fmt02d (hour diff_tv.tv_sec) ++ "-".toList ++ fmt02d (minute diff_tv.tv_sec)
    ++ "-".toList ++ fmt02d (diff_tv.tv_sec.tmod 60) ++ ".h264".toList

/-- The size of the array `out_filename`: `strlen(REC_DIR)+22`. -/
def out_filename_size : Nat := REC_DIR.length + 22

/-- The file name the child computes when the handler read the clock as `used_tv`:
`timersub(&used_tv, &start_tv, &diff_tv)` and then the `sprintf`. -/
def session_filename (start_tv used_tv : Timeval) : List Char :=
  out_filename (timersub used_tv start_tv)

/-! ## String comparison (lines 33-37) -/

/-- The C `strcmp`: walk both strings while the bytes agree and are not NUL, and
return the difference of the first two bytes that end the walk. -/
def strcmp : List Char → List Char → Int
  | [], [] => 0
  | [], b :: _ => 0 - (b.toNat : Int)
  | a :: _, [] => (a.toNat : Int) - 0
  | a :: as, b :: bs =>
    if a.toNat ≠ 0 ∧ a.toNat = b.toNat then strcmp as bs
    else (a.toNat : Int) - (b.toNat : Int)

/-- The comparison function `strcmp_wrapper` handed to `qsort`; `str_a` and `str_b`
are the strings found through the two array elements. -/
def strcmp_wrapper (str_a str_b : List Char) : Int := strcmp str_a str_b

/-! ## Storage reclamation (lines 39-78) -/

/-- The two fields of `struct statvfs` that the program reads. -/
structure Statvfs where
  f_bfree : Nat
  f_bsize : Nat
deriving DecidableEq, Repr

/-- The expression `svfs.f_bfree * svfs.f_bsize / 1000000`, computed in an
`unsigned long` of `w` bits. -/
def free_mbytes (w : Nat) (svfs : Statvfs) : Nat :=
  (svfs.f_bfree * svfs.f_bsize) % 2 ^ w / 1000000

/-- The byte `(entry->d_name)[0]`; it is the NUL for an empty name. -/
def d_name0 (d_name : List Char) : Char := d_name.headD (Char.ofNat 0)

/-- The test `(entry->d_name)[0] != '.'` of both `readdir` loops. -/
def not_hidden (d_name : List Char) : Bool := d_name0 d_name != '.'

/-- What one call of `readdir` hands back: the address `entry->d_name`, which lies in
the buffer of the directory stream, and the name that stands at this address when
the call returns. Later calls of `readdir` may fill the buffer anew. -/
structure Dirent where
  d_name_addr : Nat
  d_name : List Char
deriving DecidableEq, Repr

/-- The first `readdir` loop (lines 56-58): the value of `file_count` after it. -/
def count_files : List Dirent → Nat
  | [] => 0
  | entry :: rest =>
    if not_hidden entry.d_name then count_files rest + 1 else count_files rest

/-- The second `readdir` loop (lines 64-66): the contents of `filenames` after it.
The assignment `filenames[i++] = entry->d_name` stores the address, not the name. -/
def collect_files : List Dirent → List Nat
  | [] => []
  | entry :: rest =>
    if not_hidden entry.d_name then entry.d_name_addr :: collect_files rest
    else collect_files rest

/-- The library `qsort` over an array of `char *` with comparison function `cmp`:
the addresses sorted so that `cmp` is `<= 0` on the strings that `mem` holds at `a`
and at `b`, for every `a` placed before `b`. -/
def qsort (mem : Nat → List Char) (cmp : List Char → List Char → Int) (base : List Nat) :
    List Nat :=
  base.insertionSort (fun a b => cmp (mem a) (mem b) ≤ 0)

/-- One pass through the body of the removal loop: the index at which `filenames` was
read and the string handed to `remove`, `none` when the index lies outside the array. -/
structure RemoveCall where
  index : Nat
  name : Option (List Char)
deriving DecidableEq, Repr

/-- The `do ... while` of lines 72-75, entered with the given `i`. `mem a` is the
string that stands at address `a`. `stat k` is what the `k`-th call of `statvfs`
stores, the call on entry being call `0`; the call after the removal at index `i` is
call `i + 1`. -/
def remove_loop (w : Nat) (mem : Nat → List Char) (stat : Nat → Statvfs)
    (filenames : List Nat) (file_count : Nat) (i : Nat) : List RemoveCall :=
  ⟨i, (filenames[i]?).map mem⟩ ::
    (if i + 1 < file_count ∧ free_mbytes w (stat (i + 1)) < MINIMUM_FREE_MBYTES then
      remove_loop w mem stat filenames file_count (i + 1)
    else [])
termination_by file_count - i

/-- The function `ensure_free_space`. `dir` is the result of `opendir(REC_DIR)`: `none`
for `NULL`, otherwise what `readdir` returns, call after call, in each of the two
passes. `mem a` is the string that stands at address `a` once the second pass has
ended; nothing writes there during `qsort` and the removal loop. `malloc_null` tells
whether `malloc` returned `NULL`. The result lists the calls of `remove`, in order. -/
def ensure_free_space (w : Nat) (dir : Option (List Dirent)) (mem : Nat → List Char)
    (stat : Nat → Statvfs) (malloc_null : Bool) : List RemoveCall :=
  match dir with
  | none => []
  | some entries =>
    if free_mbytes w (stat 0) > MINIMUM_FREE_MBYTES then []
    else
      let file_count := count_files entries
      if malloc_null then []
      else
        let filenames := qsort mem strcmp_wrapper (collect_files entries)
        remove_loop w mem stat filenames file_count 0

/-! ## The recording flag (lines 95-99 and 136-138) -/

/-- The critical section at the top of `motion_handler`:
`should_record = !is_record_on; is_record_on = 1;`.
Returns `(should_record, is_record_on)`. -/
def test_and_set (is_record_on : Nat) : Nat × Nat :=
  (if is_record_on = 0 then 1 else 0, 1)

/-- The critical section of the stop path: `is_record_on = 0;`. -/
def clear_flag (_is_record_on : Nat) : Nat := 0

/-- The values of `should_record` that `n` successive runs of the first critical
section see, starting from the given flag, with no run of the second in between. -/
def burst : Nat → Nat → List Nat
  | 0, _ => []
  | n + 1, is_record_on =>
    (test_and_set is_record_on).1 :: burst n (test_and_set is_record_on).2

/-- Where an invocation of `motion_handler` stands with respect to the two critical
sections: before the first; past it with `should_record` true (the session path, which
forks); returned at line 102; past the second critical section. -/
inductive Pc where
  | entry
  | session
  | returned
  | finished
deriving DecidableEq, Repr

/-- The shared flag and the invocations of `motion_handler` made so far. -/
structure Sys where
  is_record_on : Nat
  threads : List Pc
deriving DecidableEq, Repr

/-- The atomic steps of the system: an interrupt starts a new invocation; invocation
`i` runs the first critical section; invocation `i` runs the second one. -/
inductive Step where
  | fire
  | lock_test (i : Nat)
  | lock_clear (i : Nat)
deriving DecidableEq, Repr

/-- The state at program start: `is_record_on = 0` and no invocation. -/
def Sys.init : Sys := ⟨0, []⟩

/-- The effect of one atomic step; a step that is not enabled leaves the state alone. -/
def Sys.step (s : Sys) : Step → Sys
  | Step.fire => ⟨s.is_record_on, s.threads ++ [Pc.entry]⟩
  | Step.lock_test i =>
    if s.threads[i]? = some Pc.entry then
      ⟨(test_and_set s.is_record_on).2,
        s.threads.set i (if (test_and_set s.is_record_on).1 ≠ 0 then Pc.session else Pc.returned)⟩
    else s
  | Step.lock_clear i =>
    if s.threads[i]? = some Pc.session then
      ⟨clear_flag s.is_record_on, s.threads.set i Pc.finished⟩
    else s

/-- The state after a schedule of atomic steps. -/
def Sys.run (schedule : List Step) : Sys := schedule.foldl Sys.step Sys.init

/-- The invariant of the flag: it is 0 or 1, it is 0 exactly when no invocation is on
the session path, and two invocations on the session path are the same one. -/
def Sys.Inv (s : Sys) : Prop :=
  (s.is_record_on = 0 ∨ s.is_record_on = 1) ∧
    (s.is_record_on = 0 → ∀ i : Nat, s.threads[i]? ≠ some Pc.session) ∧
    (s.is_record_on = 1 → ∃ i : Nat, s.threads[i]? = some Pc.session) ∧
    (∀ i j : Nat, s.threads[i]? = some Pc.session → s.threads[j]? = some Pc.session → i = j)

/-! ## The watcher loop (lines 121-134) -/

/-- The time of the last write to `last_tv` when the clock shows `now`: the handler
fired at `t0` wrote it first and every later motion event `e` of `events` overwrote it
at time `e`. -/
def last_event (t0 : Nat) (events : List Nat) (now : Nat) : Nat :=
  events.foldl (fun last e => if e ≤ now then e else last) t0

/-- The value of `last_tv` when the clock shows `now`: every handler stores there what
`gettimeofday` gave it (lines 92-93). -/
def last_tv_at (t0 : Nat) (events : List Nat) (now : Nat) : Timeval :=
  gettimeofday (last_event t0 events now)

/-- The state in which the `do ... while` of lines 125-131 is left. -/
structure Watch where
  now : Nat
  used_tv : Timeval
deriving DecidableEq, Repr

/-- The `do ... while` of lines 125-131, with the clock in microseconds: `usleep` lasts
exactly `sleep_us` and the rest of the body takes no time. `last_tv now` is the value
of the shared `last_tv` at time `now`. The result is `none` when `fuel` passes do not
end the loop. -/
def watch_loop (w : Nat) (last_tv : Nat → Timeval) :
    Nat → Nat → Timeval → Nat → Option Watch
  | 0, _, _, _ => none
  | fuel + 1, now, used_tv, sleep_us =>
    let now := now + sleep_us
    let diff_tv := timersub (last_tv now) used_tv
    let used_tv := last_tv now
    let sleep_us := toULong w (diff_tv.tv_sec * 1000000 + diff_tv.tv_usec)
    if sleep_us ≠ 0 then watch_loop w last_tv fuel now used_tv sleep_us
    else some ⟨now, used_tv⟩

/-- Lines 122-131 for a handler that read the clock at `t0`: `sleep(FIRST_SLEEP_SECONDS)`,
`sleep_us = 0`, then the loop. -/
def watch (w : Nat) (t0 : Nat) (events : List Nat) (fuel : Nat) : Option Watch :=
  watch_loop w (last_tv_at t0 events) fuel (t0 + FIRST_SLEEP_SECONDS * 1000000)
    (gettimeofday t0) 0

/-! ## The handler (lines 80-144) -/

/-- What one invocation of `motion_handler` does to the outside world. -/
inductive Action where
  | fork
  | execv (path : List Char) (out_filename : List Char)
  | printf_execv_error
  | kill (pid : Int) (sig : Nat) (time : Nat)
  | sync
  | remove (call : RemoveCall)
deriving DecidableEq, Repr

/-- The surroundings of one invocation of `motion_handler`. -/
structure Env where
  /-- The global `start_tv`. -/
  start_tv : Timeval
  /-- The motion events after the invocation: the times at which `last_tv` is rewritten. -/
  events : List Nat
  /-- The value `fork` returns in the process that is modelled. -/
  pid : Int
  /-- Whether `execv` returns, which it does on failure only. -/
  execv_fails : Bool
  /-- The result of `opendir(REC_DIR)` and what `readdir` then returns. -/
  dir : Option (List Dirent)
  /-- The strings at the addresses `readdir` returned, after the second pass. -/
  mem : Nat → List Char
  /-- The results of the successive `statvfs` calls. -/
  stat : Nat → Statvfs
  /-- Whether `malloc` returns `NULL`. -/
  malloc_null : Bool

/-- One invocation of `motion_handler`, started when the clock shows `t0` with the
flag at `is_record_on`, no other invocation running a critical section meanwhile.
The result is the flag at return and the actions, `none` when the watcher loop does
not end within `fuel` passes. -/
def motion_handler (w : Nat) (env : Env) (fuel : Nat) (is_record_on : Nat) (t0 : Nat) :
    Option (Nat × List Action) :=
  let used_tv := gettimeofday t0
  let should_record := (test_and_set is_record_on).1
  let is_record_on := (test_and_set is_record_on).2
  if should_record = 0 then some (is_record_on, [])
  else if env.pid = 0 then
    some (is_record_on,
      Action.fork :: Action.execv RPIVID_PATH (session_filename env.start_tv used_tv) ::
        (if env.execv_fails then [Action.printf_execv_error] else []))
  else
    match watch w t0 env.events fuel with
    | none => none
    | some stop =>
      some (clear_flag is_record_on,
        Action.fork :: Action.kill env.pid SIGINT stop.now :: Action.sync ::
          (ensure_free_space w env.dir env.mem env.stat env.malloc_null).map Action.remove)

/-- A burst: the invocations of `invs`, each with its surroundings, its fuel and its
start time, run the first critical section one after the other with no run of the
second in between, so that each finds the flag as the one before left it there; the
result lists what each invocation goes on to do. -/
def burst_run (w : Nat) : List (Env × Nat × Nat) → Nat → List (Option (Nat × List Action))
  | [], _ => []
  | (env, fuel, t0) :: rest, is_record_on =>
    motion_handler w env fuel is_record_on t0 ::
      burst_run w rest (test_and_set is_record_on).2

/-! ## Facts about `strcmp` -/

theorem strcmp_cons_same (c : Char) (x y : List Char) (hc : c.toNat ≠ 0) :
    strcmp (c :: x) (c :: y) = strcmp x y := by
  simp [strcmp, hc]

theorem strcmp_cons_lt (c d : Char) (x y : List Char) (h : c.toNat < d.toNat) :
    strcmp (c :: x) (d :: y) < 0 := by
  have hne : c.toNat ≠ d.toNat := Nat.ne_of_lt h
  simp only [strcmp, hne, and_false, if_false]
  omega

theorem strcmp_append_same (p x y : List Char) (hp : ∀ c ∈ p, c.toNat ≠ 0) :
    strcmp (p ++ x) (p ++ y) = strcmp x y := by
  induction p with
  | nil => rfl
  | cons c p ih =>
    have hc : c.toNat ≠ 0 := hp c (List.mem_cons_self c p)
    have hp' : ∀ d ∈ p, d.toNat ≠ 0 := fun d hd => hp d (List.mem_cons_of_mem c hd)
    simpa [strcmp, hc] using ih hp'

theorem strcmp_self (x : List Char) : strcmp x x = 0 := by
  induction x with
  | nil => rfl
  | cons c x ih =>
    by_cases hc : c.toNat = 0
    · simp [strcmp, hc]
    · simp [strcmp, hc, ih]

/-! ## Facts about the file name -/

theorem fmt02d_two_digits :
    ∀ n : Nat, n < 100 →
      fmt02d (n : Int) = [Char.ofNat (48 + n / 10), Char.ofNat (48 + n % 10)] := by
  decide

theorem digit_toNat : ∀ k : Nat, k < 10 → (Char.ofNat (48 + k)).toNat = 48 + k := by
  decide

theorem fmt02d_no_nul (n : Nat) (h : n < 100) : ∀ c ∈ fmt02d (n : Int), c.toNat ≠ 0 := by
  intro c hc
  rw [fmt02d_two_digits n h] at hc
  have h1 := digit_toNat (n / 10) (by omega)
  have h0 := digit_toNat (n % 10) (by omega)
  simp only [List.mem_cons, List.mem_singleton, List.not_mem_nil, or_false] at hc
  rcases hc with rfl | rfl <;> omega

/-- One two-digit field after a common NUL-free text: a smaller number gives a
smaller string, and equal numbers leave the decision to what follows. -/
theorem strcmp_field (p x y : List Char) (a b : Nat) (hp : ∀ c ∈ p, c.toNat ≠ 0)
    (hab : a ≤ b) (hb : b < 100) (hrest : a = b → strcmp x y < 0) :
    strcmp (p ++ (fmt02d (a : Int) ++ x)) (p ++ (fmt02d (b : Int) ++ y)) < 0 := by
  rw [strcmp_append_same p _ _ hp]
  rcases Nat.lt_or_eq_of_le hab with hlt | heq
  · rw [fmt02d_two_digits a (by omega), fmt02d_two_digits b hb]
    have a1 := digit_toNat (a / 10) (by omega)
    have a0 := digit_toNat (a % 10) (by omega)
    have b1 := digit_toNat (b / 10) (by omega)
    have b0 := digit_toNat (b % 10) (by omega)
    rcases Nat.lt_or_ge (a / 10) (b / 10) with h1 | h1
    · exact strcmp_cons_lt _ _ _ _ (by omega)
    · have e1 : a / 10 = b / 10 := by omega
      have h0 : a % 10 < b % 10 := by omega
      simp only [List.cons_append, List.nil_append, e1]
      rw [strcmp_cons_same _ _ _ (by omega)]
      exact strcmp_cons_lt _ _ _ _ (by omega)
  · subst heq
    rw [strcmp_append_same _ _ _ (fmt02d_no_nul a hb)]
    exact hrest rfl

theorem out_filename_fields (t : Int) (u : Int) (h0 : 0 ≤ t) (h1 : t < 8553600) :
    out_filename ⟨t, u⟩ =
      ("/root/records/rec_".toList ++ (fmt02d ((t.toNat / 86400 + 1 : Nat) : Int) ++
        ("_".toList ++ (fmt02d ((t.toNat / 3600 % 24 : Nat) : Int) ++
          ("-".toList ++ (fmt02d ((t.toNat / 60 % 60 : Nat) : Int) ++
            ("-".toList ++ (fmt02d ((t.toNat % 60 : Nat) : Int) ++ ".h264".toList)))))))) := by
  obtain ⟨n, rfl⟩ := Int.eq_ofNat_of_zero_le h0
  have hd : day (n : Int) + 1 = ((n / 86400 + 1 : Nat) : Int) := by
    unfold day toUShort
    rw [Int.tdiv_eq_ediv (by omega) (by norm_num)]
    push_cast
    omega
  have hh : hour (n : Int) = ((n / 3600 % 24 : Nat) : Int) := by
    unfold hour toUShort
    rw [Int.tdiv_eq_ediv (by omega) (by norm_num), Int.tmod_eq_emod (by omega) (by norm_num)]
    push_cast
    omega
  have hm : minute (n : Int) = ((n / 60 % 60 : Nat) : Int) := by
    unfold minute toUShort
    rw [Int.tdiv_eq_ediv (by omega) (by norm_num), Int.tmod_eq_emod (by omega) (by norm_num)]
    push_cast
    omega
  have hs : (n : Int).tmod 60 = ((n % 60 : Nat) : Int) := by
    rw [Int.tmod_eq_emod (by omega) (by norm_num)]
    push_cast
    rfl
  simp only [out_filename, hd, hh, hm, hs, Int.toNat_ofNat, REC_DIR, List.append_assoc]
  rfl

theorem strcmp_swap (x y : List Char) : strcmp y x = - strcmp x y := by
  induction x generalizing y with
  | nil =>
    cases y with
    | nil => rfl
    | cons b bs => simp [strcmp]
  | cons a as ih =>
    cases y with
    | nil => simp [strcmp]
    | cons b bs =>
      by_cases h : a.toNat ≠ 0 ∧ a.toNat = b.toNat
      · have h' : b.toNat ≠ 0 ∧ b.toNat = a.toNat := ⟨by omega, h.2.symm⟩
        simp only [strcmp]
        rw [if_pos h, if_pos h']
        exact ih bs
      · have h' : ¬ (b.toNat ≠ 0 ∧ b.toNat = a.toNat) := by
          intro hb
          exact h ⟨by omega, hb.2.symm⟩
        simp only [strcmp]
        rw [if_neg h, if_neg h']
        omega

theorem no_nul_literal :
    (∀ c ∈ "/root/records/rec_".toList, c.toNat ≠ 0) ∧ (∀ c ∈ "_".toList, c.toNat ≠ 0) ∧
      (∀ c ∈ "-".toList, c.toNat ≠ 0) := by
  decide

/-- A later second within the first 99 days gives a strictly greater file name. -/
theorem out_filename_lt (t1 t2 u1 u2 : Int) (h0 : 0 ≤ t1) (h12 : t1 < t2)
    (h2 : t2 < 8553600) :
    strcmp (out_filename ⟨t1, u1⟩) (out_filename ⟨t2, u2⟩) < 0 := by
  rw [out_filename_fields t1 u1 h0 (by omega), out_filename_fields t2 u2 (by omega) h2]
  obtain ⟨n1, rfl⟩ := Int.eq_ofNat_of_zero_le h0
  obtain ⟨n2, rfl⟩ := Int.eq_ofNat_of_zero_le (show (0 : Int) ≤ t2 by omega)
  simp only [Int.toNat_ofNat]
  have hlt : n1 < n2 := by omega
  have hb : n2 < 8553600 := by omega
  obtain ⟨p0, p1, p2⟩ := no_nul_literal
  apply strcmp_field _ _ _ _ _ p0 (by omega) (by omega)
  intro e1
  apply strcmp_field _ _ _ _ _ p1 (by omega) (by omega)
  intro e2
  apply strcmp_field _ _ _ _ _ p2 (by omega) (by omega)
  intro e3
  apply strcmp_field _ _ _ _ _ p2 (by omega) (by omega)
  intro e4
  omega

theorem out_filename_length (t u : Int) (h0 : 0 ≤ t) (h1 : t < 8553600) :
    (out_filename ⟨t, u⟩).length + 1 = out_filename_size := by
  rw [out_filename_fields t u h0 h1]
  obtain ⟨n, rfl⟩ := Int.eq_ofNat_of_zero_le h0
  simp only [Int.toNat_ofNat]
  have hn : n < 8553600 := by omega
  rw [fmt02d_two_digits _ (show n / 86400 + 1 < 100 by omega),
    fmt02d_two_digits _ (show n / 3600 % 24 < 100 by omega),
    fmt02d_two_digits _ (show n / 60 % 60 < 100 by omega),
    fmt02d_two_digits _ (show n % 60 < 100 by omega)]
  rfl

/-! ## C3: the file name of a session started 90065 seconds after the start -/

/-- C3, as stated, fails: with `start_tv` at zero and the trigger 90065 seconds later
the computed file name is not `/root/records/rec_02_00-01-05.h264`. -/
theorem C3_refuted_at_90065 :
    session_filename ⟨0, 0⟩ ⟨90065, 0⟩ ≠ "/root/records/rec_02_00-01-05.h264".toList := by
  decide

/-- C3, amended: 90065 seconds are one day, one hour, one minute and five seconds, so
for every `start_tv` a trigger exactly 90065 seconds later yields
`/root/records/rec_02_01-01-05.h264`; the name `/root/records/rec_02_00-01-05.h264`
is the one computed 86465 seconds (one day, one minute, five seconds) after the start. -/
theorem C3_filename_90065 (start_tv : Timeval) :
    session_filename start_tv ⟨start_tv.tv_sec + 90065, start_tv.tv_usec⟩
        = "/root/records/rec_02_01-01-05.h264".toList
      ∧ session_filename start_tv ⟨start_tv.tv_sec + 86465, start_tv.tv_usec⟩
        = "/root/records/rec_02_00-01-05.h264".toList := by
  have e1 : timersub ⟨start_tv.tv_sec + 90065, start_tv.tv_usec⟩ start_tv = ⟨90065, 0⟩ := by
    simp [timersub]
  have e2 : timersub ⟨start_tv.tv_sec + 86465, start_tv.tv_usec⟩ start_tv = ⟨86465, 0⟩ := by
    simp [timersub]
  unfold session_filename
  rw [e1, e2]
  constructor <;> decide

/-! ## C4: order of file names and order of time -/

/-- C4, as stated, fails: the session started at second 8553599 (day field `99`) is
older than the one started at second 8553600 (day field `100`), yet its file name is
the greater one under `strcmp`. -/
theorem C4_refuted_at_day_99 :
    (0 : Int) ≤ 8553599 ∧ (8553599 : Int) ≤ 8553600 ∧
      ¬ strcmp_wrapper (out_filename ⟨8553599, 0⟩) (out_filename ⟨8553600, 0⟩) ≤ 0 := by
  decide

/-- C4, amended: while the day field has two digits, that is for elapsed times below
99 days (8553600 seconds), the order of the file names under `strcmp` is the order of
the elapsed seconds, in both directions, and the name fills the array `out_filename`
exactly. -/
theorem C4_filename_order (t1 t2 u1 u2 : Int) (h1 : 0 ≤ t1) (h1' : t1 < 8553600)
    (h2 : 0 ≤ t2) (h2' : t2 < 8553600) :
    (t1 ≤ t2 ↔ strcmp_wrapper (out_filename ⟨t1, u1⟩) (out_filename ⟨t2, u2⟩) ≤ 0)
      ∧ (out_filename ⟨t1, u1⟩).length + 1 = out_filename_size := by
  refine ⟨⟨fun h => ?_, fun h => ?_⟩, out_filename_length t1 u1 h1 h1'⟩
  · rcases lt_or_eq_of_le h with hlt | heq
    · exact le_of_lt (out_filename_lt t1 t2 u1 u2 h1 hlt h2')
    · subst heq
      have e : out_filename ⟨t1, u1⟩ = out_filename ⟨t1, u2⟩ := rfl
      unfold strcmp_wrapper
      rw [e, strcmp_self]
  · by_contra hn
    have hlt := out_filename_lt t2 t1 u2 u1 h2 (by omega) h1'
    have hs := strcmp_swap (out_filename ⟨t2, u2⟩) (out_filename ⟨t1, u1⟩)
    unfold strcmp_wrapper at h
    omega

/-- C4, amended, at the seconds 86399 and 86400. -/
theorem C4_filename_order_witness :
    ((86399 : Int) ≤ 86400 ↔
        strcmp_wrapper (out_filename ⟨86399, 0⟩) (out_filename ⟨86400, 0⟩) ≤ 0)
      ∧ (out_filename ⟨86399, 0⟩).length + 1 = out_filename_size :=
  C4_filename_order 86399 86400 0 0 (by decide) (by decide) (by decide) (by decide)

/-! ## Facts about the order `strcmp a b <= 0` -/

theorem strcmp_le_total (a b : List Char) : strcmp a b ≤ 0 ∨ strcmp b a ≤ 0 := by
  have h := strcmp_swap a b
  omega

theorem strcmp_le_trans (a b c : List Char) (hab : strcmp a b ≤ 0) (hbc : strcmp b c ≤ 0) :
    strcmp a c ≤ 0 := by
  induction a generalizing b c with
  | nil =>
    cases c with
    | nil => simp [strcmp]
    | cons c0 cs => simp only [strcmp]; omega
  | cons a0 as ih =>
    cases b with
    | nil =>
      simp only [strcmp] at hab
      cases c with
      | nil => simp only [strcmp]; omega
      | cons c0 cs =>
        simp only [strcmp]
        split_ifs with h
        · omega
        · omega
    | cons b0 bs =>
      cases c with
      | nil =>
        simp only [strcmp] at hab hbc ⊢
        split_ifs at hab with h
        · omega
        · omega
      | cons c0 cs =>
        simp only [strcmp] at hab hbc ⊢
        split_ifs at hab hbc ⊢ with h1 h2 h3 h3 h2 h3 h3
        all_goals first
          | exact ih bs cs hab hbc
          | (exfalso; omega)
          | omega

/-! ## Facts about the reclamation -/

theorem collect_files_eq_filter (entries : List Dirent) :
    collect_files entries
      = (entries.filter (fun e => decide (e.d_name.head? ≠ some '.'))).map
          Dirent.d_name_addr := by
  induction entries with
  | nil => rfl
  | cons e rest ih =>
    have hd : not_hidden e.d_name = decide (e.d_name.head? ≠ some '.') := by
      cases hname : e.d_name with
      | nil => decide
      | cons c cs =>
        by_cases hc : c = '.'
        · subst hc; simp [not_hidden, d_name0]
        · simp [not_hidden, d_name0, hc]
    simp only [collect_files, List.filter_cons, ih, hd]
    split <;> simp

theorem count_files_eq_length (entries : List Dirent) :
    count_files entries = (collect_files entries).length := by
  induction entries with
  | nil => rfl
  | cons e rest ih =>
    simp only [count_files, collect_files]
    split <;> simp [ih]

theorem qsort_perm (mem : Nat → List Char) (base : List Nat) :
    (qsort mem strcmp_wrapper base).Perm base :=
  List.perm_insertionSort _ base

theorem qsort_sorted (mem : Nat → List Char) (base : List Nat) :
    (qsort mem strcmp_wrapper base).Pairwise (fun a b => strcmp (mem a) (mem b) ≤ 0) :=
  @List.sorted_insertionSort _ (fun a b => strcmp_wrapper (mem a) (mem b) ≤ 0) _
    ⟨fun a b => strcmp_le_total (mem a) (mem b)⟩
    ⟨fun a b c => strcmp_le_trans (mem a) (mem b) (mem c)⟩ base

/-- The removal loop entered at `i` makes `m >= 1` passes, at the indices
`i, i+1, ..., i+m-1`; it stays inside the array when it was entered inside, it goes on
exactly while the space read after a removal is below the minimum, and it stops at the
first reading that is not, or at the end of the array. -/
theorem remove_loop_spec (w : Nat) (mem : Nat → List Char) (stat : Nat → Statvfs)
    (filenames : List Nat) (fc : Nat) :
    ∀ n i, fc - i = n →
      ∃ m, 1 ≤ m ∧ (i < fc → i + m ≤ fc) ∧
        (∀ j, i < j → j < i + m → free_mbytes w (stat j) < MINIMUM_FREE_MBYTES) ∧
        (i + m < fc → MINIMUM_FREE_MBYTES ≤ free_mbytes w (stat (i + m))) ∧
        remove_loop w mem stat filenames fc i
          = (List.range' i m).map (fun j => (⟨j, (filenames[j]?).map mem⟩ : RemoveCall)) := by
  intro n
  induction n with
  | zero =>
    intro i hi
    refine ⟨1, le_refl 1, fun h => by omega, fun j h1 h2 => by omega, fun h => by omega, ?_⟩
    rw [remove_loop]
    have hc : ¬ (i + 1 < fc ∧ free_mbytes w (stat (i + 1)) < MINIMUM_FREE_MBYTES) := by
      intro h; omega
    rw [if_neg hc]
    rfl
  | succ n ih =>
    intro i hi
    by_cases hc : i + 1 < fc ∧ free_mbytes w (stat (i + 1)) < MINIMUM_FREE_MBYTES
    · obtain ⟨m, hm1, hm2, hm3, hm4, hm5⟩ := ih (i + 1) (by omega)
      refine ⟨m + 1, by omega, fun _ => by have := hm2 hc.1; omega, ?_, ?_, ?_⟩
      · intro j h1 h2
        rcases Nat.eq_or_lt_of_le (show i + 1 ≤ j from h1) with e | l
        · rw [← e]; exact hc.2
        · exact hm3 j l (by omega)
      · intro h
        have e : i + (m + 1) = i + 1 + m := by omega
        rw [e]
        exact hm4 (by omega)
      · rw [remove_loop, if_pos hc, hm5]
        rfl
    · refine ⟨1, le_refl 1, fun h => by omega, fun j h1 h2 => by omega, ?_, ?_⟩
      · intro h
        by_contra hlt
        exact hc ⟨h, by omega⟩
      · rw [remove_loop, if_neg hc]
        rfl

/-- When the directory opens and `malloc` succeeds, nothing more than 500 MB free on
entry sends `ensure_free_space` into the removal loop over the sorted addresses. -/
theorem ensure_free_space_low (w : Nat) (entries : List Dirent) (mem : Nat → List Char)
    (stat : Nat → Statvfs) (hlow : free_mbytes w (stat 0) ≤ MINIMUM_FREE_MBYTES) :
    ensure_free_space w (some entries) mem stat false
      = remove_loop w mem stat (qsort mem strcmp_wrapper (collect_files entries))
          (count_files entries) 0 := by
  have h : ¬ free_mbytes w (stat 0) > MINIMUM_FREE_MBYTES := by omega
  simp [ensure_free_space, h]

/-- More than 500 MB free on entry: `ensure_free_space` removes nothing. -/
theorem ensure_free_space_enough (w : Nat) (dir : Option (List Dirent))
    (mem : Nat → List Char) (stat : Nat → Statvfs) (malloc_null : Bool)
    (h : MINIMUM_FREE_MBYTES < free_mbytes w (stat 0)) :
    ensure_free_space w dir mem stat malloc_null = [] := by
  cases dir with
  | none => rfl
  | some entries => simp [ensure_free_space, h]

theorem map_getElem?_range (mem : Nat → List Char) (l : List Nat) :
    ∀ m, m ≤ l.length →
      (List.range m).map (fun j => (l[j]?).map mem)
        = (l.take m).map (fun a => some (mem a)) := by
  intro m
  induction m with
  | zero => intro _; rfl
  | succ m ih =>
    intro hm
    have hlt : m < l.length := by omega
    rw [List.range_succ, List.map_append, ih (by omega), List.take_succ, List.map_append]
    simp [List.getElem?_eq_getElem hlt]

/-- The calls of `remove` that `ensure_free_space` makes once it has reached the
removal loop with `n >= 1` stored addresses: `k` of them, at the indices `0 .. k-1` of
the sorted array, each with the string that stands at the address read. -/
theorem ensure_free_space_calls (w : Nat) (entries : List Dirent) (mem : Nat → List Char)
    (stat : Nat → Statvfs) (hn : 1 ≤ count_files entries)
    (hlow : free_mbytes w (stat 0) ≤ MINIMUM_FREE_MBYTES) :
    ∃ k, 1 ≤ k ∧ k ≤ count_files entries ∧
      (∀ j, 1 ≤ j → j < k → free_mbytes w (stat j) < MINIMUM_FREE_MBYTES) ∧
      (k = count_files entries ∨ MINIMUM_FREE_MBYTES ≤ free_mbytes w (stat k)) ∧
      ensure_free_space w (some entries) mem stat false
        = (List.range k).map (fun j =>
            (⟨j, ((qsort mem strcmp_wrapper (collect_files entries))[j]?).map mem⟩
              : RemoveCall)) := by
  obtain ⟨m, h1, h2, h3, h4, h5⟩ :=
    remove_loop_spec w mem stat (qsort mem strcmp_wrapper (collect_files entries))
      (count_files entries) (count_files entries - 0) 0 rfl
  have hle : m ≤ count_files entries := by have := h2 (by omega); omega
  refine ⟨m, h1, hle, ?_, ?_, ?_⟩
  · intro j hj1 hj2
    exact h3 j (by omega) (by omega)
  · rcases Nat.eq_or_lt_of_le hle with e | l
    · exact Or.inl e
    · right
      have := h4 (by omega)
      simpa using this
  · rw [ensure_free_space_low w entries mem stat hlow, h5, List.range_eq_range']

/-- Every call of `remove` reads `filenames` inside the array and passes the string
that stands at the address `readdir` gave for some entry of the directory. -/
theorem ensure_free_space_names (w : Nat) (entries : List Dirent) (mem : Nat → List Char)
    (stat : Nat → Statvfs) (malloc_null : Bool) (hn : 1 ≤ count_files entries) :
    ∀ c ∈ ensure_free_space w (some entries) mem stat malloc_null,
      c.index < count_files entries ∧ ∃ e ∈ entries, c.name = some (mem e.d_name_addr) := by
  by_cases hlow : free_mbytes w (stat 0) ≤ MINIMUM_FREE_MBYTES
  · cases malloc_null with
    | true =>
      have h : ¬ free_mbytes w (stat 0) > MINIMUM_FREE_MBYTES := by omega
      have e : ensure_free_space w (some entries) mem stat true = [] := by
        simp [ensure_free_space, h]
      rw [e]
      simp
    | false =>
      obtain ⟨k, hk1, hk2, _, _, he⟩ := ensure_free_space_calls w entries mem stat hn hlow
      rw [he]
      intro c hc
      obtain ⟨j, hj, rfl⟩ := List.mem_map.mp hc
      have hjk : j < k := List.mem_range.mp hj
      have hlen : (qsort mem strcmp_wrapper (collect_files entries)).length
          = count_files entries := by
        rw [(qsort_perm _ _).length_eq, count_files_eq_length]
      have hjl : j < (qsort mem strcmp_wrapper (collect_files entries)).length := by omega
      refine ⟨by show j < count_files entries; omega, ?_⟩
      have hmem : (qsort mem strcmp_wrapper (collect_files entries))[j]
          ∈ collect_files entries :=
        (qsort_perm _ _).subset (List.getElem_mem hjl)
      have hsub : ∀ a ∈ collect_files entries, ∃ e ∈ entries, e.d_name_addr = a := by
        intro a ha
        rw [collect_files_eq_filter] at ha
        obtain ⟨e, he1, he2⟩ := List.mem_map.mp ha
        exact ⟨e, List.mem_of_mem_filter he1, he2⟩
      obtain ⟨e, he1, he2⟩ := hsub _ hmem
      refine ⟨e, he1, ?_⟩
      show ((qsort mem strcmp_wrapper (collect_files entries))[j]?).map mem = _
      rw [List.getElem?_eq_getElem hjl, he2]
      rfl
  · have e := ensure_free_space_enough w (some entries) mem stat malloc_null (by omega)
    rw [e]
    simp

/-- A name that stands at none of the addresses `readdir` gave, because the buffer
was filled anew after the name was returned, is never handed to `remove`. -/
theorem stale_name_never_removed (w : Nat) (entries : List Dirent) (mem : Nat → List Char)
    (stat : Nat → Statvfs) (malloc_null : Bool) (name : List Char)
    (hn : 1 ≤ count_files entries) (hstale : ∀ e ∈ entries, mem e.d_name_addr ≠ name) :
    ∀ c ∈ ensure_free_space w (some entries) mem stat malloc_null, c.name ≠ some name := by
  intro c hc heq
  obtain ⟨_, e, he1, he2⟩ := ensure_free_space_names w entries mem stat malloc_null hn c hc
  rw [he2] at heq
  exact hstale e he1 (Option.some.inj heq)

/-! ## C5: exactly 500 MB free on entry -/

/-- C5 fails on the code at exactly 500 MB: with 122071 free blocks of 4096 bytes the
program computes 500, which passes the test `> MINIMUM_FREE_MBYTES` of line 52 unreturned,
and the one recording in the directory is handed to `remove`, although the loop test
of line 75 counts the same 500 as enough. -/
theorem C5_exactly_500_removes_a_file :
    free_mbytes 32 ⟨122071, 4096⟩ = MINIMUM_FREE_MBYTES ∧
      ensure_free_space 32
          (some [⟨0, ".".toList⟩, ⟨1, "..".toList⟩, ⟨2, "rec_01_00-00-00.h264".toList⟩])
          (fun a => if a = 0 then ".".toList else if a = 1 then "..".toList
            else "rec_01_00-00-00.h264".toList)
          (fun _ => ⟨122071, 4096⟩) false
        = [⟨0, some "rec_01_00-00-00.h264".toList⟩] := by
  refine ⟨by decide, ?_⟩
  rw [ensure_free_space_low _ _ _ _ (by decide), remove_loop, if_neg (by decide)]
  decide

/-! ## C6: the removal loop ends within the array -/

/-- C6: with `n >= 1` visible names in the directory, whatever the free-space readings,
whatever stands at the stored addresses and whether or not `malloc` succeeds,
`ensure_free_space` (a total function: the loop always ends) calls `remove` at most `n`
times, at the indices `0, 1, ..., k-1` in this order, hence at pairwise distinct
indices, all below `n`, each time with the string that stands at the address `readdir`
gave for an entry of the directory; where these strings still are the names, each
call gets a name of the directory. -/
theorem C6_reclaim_terminates (w : Nat) (entries : List Dirent) (mem : Nat → List Char)
    (stat : Nat → Statvfs) (malloc_null : Bool) (hn : 1 ≤ count_files entries) :
    count_files entries
        = (entries.filter (fun e => decide (e.d_name.head? ≠ some '.'))).length ∧
      (ensure_free_space w (some entries) mem stat malloc_null).length
        ≤ count_files entries ∧
      (ensure_free_space w (some entries) mem stat malloc_null).map RemoveCall.index
        = List.range (ensure_free_space w (some entries) mem stat malloc_null).length ∧
      ((ensure_free_space w (some entries) mem stat malloc_null).map
        RemoveCall.index).Nodup ∧
      (∀ c ∈ ensure_free_space w (some entries) mem stat malloc_null,
        c.index < count_files entries ∧
          ∃ e ∈ entries, c.name = some (mem e.d_name_addr)) ∧
      ((∀ e ∈ entries, mem e.d_name_addr = e.d_name) →
        ∀ c ∈ ensure_free_space w (some entries) mem stat malloc_null,
          ∃ e ∈ entries, c.name = some e.d_name) := by
  have hnames := ensure_free_space_names w entries mem stat malloc_null hn
  refine ⟨by rw [count_files_eq_length, collect_files_eq_filter, List.length_map], ?_, ?_, ?_,
    hnames, ?_⟩
  · by_cases hlow : free_mbytes w (stat 0) ≤ MINIMUM_FREE_MBYTES
    · cases malloc_null with
      | true =>
        have h : ¬ free_mbytes w (stat 0) > MINIMUM_FREE_MBYTES := by omega
        simp [ensure_free_space, h]
      | false =>
        obtain ⟨k, hk1, hk2, _, _, he⟩ := ensure_free_space_calls w entries mem stat hn hlow
        rw [he]
        simpa using hk2
    · rw [ensure_free_space_enough w (some entries) mem stat malloc_null (by omega)]
      simp
  · by_cases hlow : free_mbytes w (stat 0) ≤ MINIMUM_FREE_MBYTES
    · cases malloc_null with
      | true =>
        have h : ¬ free_mbytes w (stat 0) > MINIMUM_FREE_MBYTES := by omega
        simp [ensure_free_space, h]
      | false =>
        obtain ⟨k, hk1, hk2, _, _, he⟩ := ensure_free_space_calls w entries mem stat hn hlow
        rw [he, List.map_map, List.length_map, List.length_range]
        exact List.map_id _
    · rw [ensure_free_space_enough w (some entries) mem stat malloc_null (by omega)]
      simp
  · by_cases hlow : free_mbytes w (stat 0) ≤ MINIMUM_FREE_MBYTES
    · cases malloc_null with
      | true =>
        have h : ¬ free_mbytes w (stat 0) > MINIMUM_FREE_MBYTES := by omega
        simp [ensure_free_space, h]
      | false =>
        obtain ⟨k, hk1, hk2, _, _, he⟩ := ensure_free_space_calls w entries mem stat hn hlow
        have hmap : ((List.range k).map (fun j =>
            (⟨j, ((qsort mem strcmp_wrapper (collect_files entries))[j]?).map mem⟩
              : RemoveCall))).map RemoveCall.index = List.range k := by
          rw [List.map_map]
          exact List.map_id _
        rw [he, hmap]
        exact List.nodup_range k
    · rw [ensure_free_space_enough w (some entries) mem stat malloc_null (by omega)]
      simp
  · intro hintact c hc
    obtain ⟨_, e, he1, he2⟩ := hnames c hc
    exact ⟨e, he1, by rw [he2, hintact e he1]⟩

/-- C6 at a directory with two recordings and free space that never recovers. -/
theorem C6_reclaim_terminates_witness :
    (1 ≤ count_files [⟨0, ".".toList⟩, ⟨1, "b".toList⟩, ⟨2, "..".toList⟩, ⟨3, "a".toList⟩]) ∧
    (count_files [⟨0, ".".toList⟩, ⟨1, "b".toList⟩, ⟨2, "..".toList⟩, ⟨3, "a".toList⟩]
        = (([⟨0, ".".toList⟩, ⟨1, "b".toList⟩, ⟨2, "..".toList⟩, ⟨3, "a".toList⟩] : List Dirent).filter
            (fun e => decide (e.d_name.head? ≠ some '.'))).length ∧
      (ensure_free_space 32
          (some [⟨0, ".".toList⟩, ⟨1, "b".toList⟩, ⟨2, "..".toList⟩, ⟨3, "a".toList⟩])
          (fun a => if a = 0 then ".".toList else if a = 1 then "b".toList
            else if a = 2 then "..".toList else "a".toList)
          (fun _ => ⟨1000, 4096⟩) false).length
        ≤ count_files [⟨0, ".".toList⟩, ⟨1, "b".toList⟩, ⟨2, "..".toList⟩, ⟨3, "a".toList⟩] ∧
      (ensure_free_space 32
          (some [⟨0, ".".toList⟩, ⟨1, "b".toList⟩, ⟨2, "..".toList⟩, ⟨3, "a".toList⟩])
          (fun a => if a = 0 then ".".toList else if a = 1 then "b".toList
            else if a = 2 then "..".toList else "a".toList)
          (fun _ => ⟨1000, 4096⟩) false).map RemoveCall.index
        = List.range (ensure_free_space 32
          (some [⟨0, ".".toList⟩, ⟨1, "b".toList⟩, ⟨2, "..".toList⟩, ⟨3, "a".toList⟩])
          (fun a => if a = 0 then ".".toList else if a = 1 then "b".toList
            else if a = 2 then "..".toList else "a".toList)
          (fun _ => ⟨1000, 4096⟩) false).length ∧
      ((ensure_free_space 32
          (some [⟨0, ".".toList⟩, ⟨1, "b".toList⟩, ⟨2, "..".toList⟩, ⟨3, "a".toList⟩])
          (fun a => if a = 0 then ".".toList else if a = 1 then "b".toList
            else if a = 2 then "..".toList else "a".toList)
          (fun _ => ⟨1000, 4096⟩) false).map
        RemoveCall.index).Nodup ∧
      (∀ c ∈ ensure_free_space 32
          (some [⟨0, ".".toList⟩, ⟨1, "b".toList⟩, ⟨2, "..".toList⟩, ⟨3, "a".toList⟩])
          (fun a => if a = 0 then ".".toList else if a = 1 then "b".toList
            else if a = 2 then "..".toList else "a".toList)
          (fun _ => ⟨1000, 4096⟩) false,
        c.index < count_files [⟨0, ".".toList⟩, ⟨1, "b".toList⟩, ⟨2, "..".toList⟩, ⟨3, "a".toList⟩] ∧
          ∃ e ∈ ([⟨0, ".".toList⟩, ⟨1, "b".toList⟩, ⟨2, "..".toList⟩, ⟨3, "a".toList⟩] : List Dirent),
            c.name = some ((fun a => if a = 0 then ".".toList else if a = 1 then "b".toList
            else if a = 2 then "..".toList else "a".toList) e.d_name_addr)) ∧
      ((∀ e ∈ ([⟨0, ".".toList⟩, ⟨1, "b".toList⟩, ⟨2, "..".toList⟩, ⟨3, "a".toList⟩] : List Dirent),
          (fun a => if a = 0 then ".".toList else if a = 1 then "b".toList
            else if a = 2 then "..".toList else "a".toList) e.d_name_addr = e.d_name) →
        ∀ c ∈ ensure_free_space 32
          (some [⟨0, ".".toList⟩, ⟨1, "b".toList⟩, ⟨2, "..".toList⟩, ⟨3, "a".toList⟩])
          (fun a => if a = 0 then ".".toList else if a = 1 then "b".toList
            else if a = 2 then "..".toList else "a".toList)
          (fun _ => ⟨1000, 4096⟩) false,
          ∃ e ∈ ([⟨0, ".".toList⟩, ⟨1, "b".toList⟩, ⟨2, "..".toList⟩, ⟨3, "a".toList⟩] : List Dirent), c.name = some e.d_name)) :=
  ⟨by decide, C6_reclaim_terminates 32 [⟨0, ".".toList⟩, ⟨1, "b".toList⟩, ⟨2, "..".toList⟩, ⟨3, "a".toList⟩]
    (fun a => if a = 0 then ".".toList else if a = 1 then "b".toList
            else if a = 2 then "..".toList else "a".toList)
    (fun _ => ⟨1000, 4096⟩) false (by decide)⟩

/-! ## C7: which names go first -/

/-- Where every stored address still holds the name `readdir` returned there, the
removal goes oldest first: the names handed to `remove` are, in order, the first `k`
elements of `sorted`, a rearrangement of the names not beginning with `.` in ascending
`strcmp` order, where `k >= 1` is the first count at which the re-read free space is
not below 500 MB, or the number of names when there is no such count; no removed name
begins with `.` and every removed name is `strcmp`-before or equal to every name that
is kept. -/
theorem oldest_first_of_intact (w : Nat) (entries : List Dirent) (mem : Nat → List Char)
    (stat : Nat → Statvfs)
    (hintact : ∀ e ∈ entries, mem e.d_name_addr = e.d_name)
    (hn : 1 ≤ (entries.filter (fun e => decide (e.d_name.head? ≠ some '.'))).length)
    (hlow : free_mbytes w (stat 0) ≤ MINIMUM_FREE_MBYTES) :
    ∃ (sorted : List (List Char)) (k : Nat),
      sorted.Perm ((entries.filter (fun e => decide (e.d_name.head? ≠ some '.'))).map
        Dirent.d_name) ∧
      sorted.Pairwise (fun a b => strcmp_wrapper a b ≤ 0) ∧
      1 ≤ k ∧ k ≤ sorted.length ∧
      (∀ j, 1 ≤ j → j < k → free_mbytes w (stat j) < MINIMUM_FREE_MBYTES) ∧
      (k = sorted.length ∨ MINIMUM_FREE_MBYTES ≤ free_mbytes w (stat k)) ∧
      (ensure_free_space w (some entries) mem stat false).map RemoveCall.name
        = (sorted.take k).map some ∧
      (∀ r ∈ sorted.take k, r.head? ≠ some '.') ∧
      (∀ r ∈ sorted.take k, ∀ x ∈ sorted.drop k, strcmp_wrapper r x ≤ 0) := by
  have hperm := qsort_perm mem (collect_files entries)
  have hlen : (qsort mem strcmp_wrapper (collect_files entries)).length
      = count_files entries := by
    rw [hperm.length_eq, count_files_eq_length]
  have hn' : 1 ≤ count_files entries := by
    rw [count_files_eq_length, collect_files_eq_filter, List.length_map]
    exact hn
  obtain ⟨k, hk1, hk2, hk3, hk4, he⟩ := ensure_free_space_calls w entries mem stat hn' hlow
  have hsorted : ((qsort mem strcmp_wrapper (collect_files entries)).map mem).Pairwise
      (fun a b => strcmp_wrapper a b ≤ 0) :=
    List.pairwise_map.mpr (qsort_sorted mem (collect_files entries))
  have hnames : ((qsort mem strcmp_wrapper (collect_files entries)).map mem).Perm
      ((entries.filter (fun e => decide (e.d_name.head? ≠ some '.'))).map Dirent.d_name) := by
    have h1 : ((qsort mem strcmp_wrapper (collect_files entries)).map mem).Perm
        ((collect_files entries).map mem) := hperm.map mem
    have h0 : (collect_files entries).map mem
        = (entries.filter (fun e => decide (e.d_name.head? ≠ some '.'))).map
          (mem ∘ Dirent.d_name_addr) := by
      rw [collect_files_eq_filter, List.map_map]
    rw [h0] at h1
    have h2 : (entries.filter (fun e => decide (e.d_name.head? ≠ some '.'))).map
        (mem ∘ Dirent.d_name_addr)
        = (entries.filter (fun e => decide (e.d_name.head? ≠ some '.'))).map
          Dirent.d_name := by
      apply List.map_congr_left
      intro e he
      exact hintact e (List.mem_of_mem_filter he)
    rw [h2] at h1
    exact h1
  refine ⟨(qsort mem strcmp_wrapper (collect_files entries)).map mem, k, hnames, hsorted,
    hk1, by rw [List.length_map]; omega, hk3, ?_, ?_, ?_, ?_⟩
  · rw [List.length_map, hlen]
    exact hk4
  · rw [he, List.map_map, ← List.map_take, List.map_map]
    exact map_getElem?_range mem _ k (by omega)
  · intro r hr
    have hmem : r ∈ (entries.filter (fun e => decide (e.d_name.head? ≠ some '.'))).map
        Dirent.d_name := hnames.subset (List.mem_of_mem_take hr)
    obtain ⟨e, he1, rfl⟩ := List.mem_map.mp hmem
    simpa using (List.mem_filter.mp he1).2
  · intro r hr x hx
    have hsplit := hsorted
    rw [← List.take_append_drop k ((qsort mem strcmp_wrapper (collect_files entries)).map mem),
      List.pairwise_append] at hsplit
    exact hsplit.2.2 r hr x hx

/-- C7 fails on the code once `readdir` has refilled its buffer during the second pass.
Here the buffer holds three entries: `.`, `..` and the oldest recording come first, at
the addresses 0, 1 and 2, then three newer recordings at the same addresses. Line 66
stored the addresses, so the address kept for the oldest recording now shows the newest
one: with the free space never recovering `remove` gets the second, the third and
twice the fourth recording, and never the oldest, `rec_01_00-00-00.h264`. -/
theorem C7_stale_addresses_skip_the_oldest :
    strcmp_wrapper "rec_01_00-00-00.h264".toList "rec_01_00-00-30.h264".toList < 0 ∧
      ensure_free_space 32
          (some [⟨0, ".".toList⟩, ⟨1, "..".toList⟩, ⟨2, "rec_01_00-00-00.h264".toList⟩,
            ⟨0, "rec_01_00-00-30.h264".toList⟩, ⟨1, "rec_01_00-01-00.h264".toList⟩,
            ⟨2, "rec_01_00-01-30.h264".toList⟩])
          (fun a => if a = 0 then "rec_01_00-00-30.h264".toList
            else if a = 1 then "rec_01_00-01-00.h264".toList else "rec_01_00-01-30.h264".toList)
          (fun _ => ⟨1000, 4096⟩) false
        = [⟨0, some "rec_01_00-00-30.h264".toList⟩, ⟨1, some "rec_01_00-01-00.h264".toList⟩,
            ⟨2, some "rec_01_00-01-30.h264".toList⟩, ⟨3, some "rec_01_00-01-30.h264".toList⟩] := by
  refine ⟨by decide, ?_⟩
  rw [ensure_free_space_low _ _ _ _ (by decide), remove_loop, if_pos (by decide),
    remove_loop, if_pos (by decide), remove_loop, if_pos (by decide), remove_loop,
    if_neg (by decide)]
  decide

/-! ## C10: the index of the first pass -/

/-- C10 fails on the code when no name is visible: for a directory holding only `.`
and `..` and 409 MB free, `file_count` is 0 and `malloc(0)` may return a non-null
pointer; the `do ... while` then runs its body once, reads `filenames[0]` outside the
array and hands what it finds to `remove`. -/
theorem C10_empty_list_reads_index_zero :
    count_files [⟨0, ".".toList⟩, ⟨1, "..".toList⟩] = 0 ∧
      free_mbytes 32 ⟨100000, 4096⟩ < MINIMUM_FREE_MBYTES ∧
      ensure_free_space 32 (some [⟨0, ".".toList⟩, ⟨1, "..".toList⟩])
          (fun a => if a = 0 then ".".toList else "..".toList)
          (fun _ => ⟨100000, 4096⟩) false
        = [⟨0, none⟩] := by
  refine ⟨by decide, by decide, ?_⟩
  rw [ensure_free_space_low _ _ _ _ (by decide), remove_loop, if_neg (by decide)]
  decide

/-! ## Facts about the flag and the schedules -/

theorem Sys.inv_init : Sys.Inv Sys.init := by
  refine ⟨Or.inl rfl, fun _ i => by simp [Sys.init], fun h => ?_, fun i j hi _ => ?_⟩
  · simp [Sys.init] at h
  · simp [Sys.init] at hi

theorem Sys.inv_step (s : Sys) (st : Step) (h : Sys.Inv s) : Sys.Inv (s.step st) := by
  obtain ⟨h01, h0, h1, huniq⟩ := h
  have app : ∀ i : Nat, (s.threads ++ [Pc.entry])[i]? = some Pc.session →
      s.threads[i]? = some Pc.session := by
    intro i hi
    rcases Nat.lt_or_ge i s.threads.length with hlt | hge
    · rwa [List.getElem?_append_left hlt] at hi
    · rw [List.getElem?_append_right hge] at hi
      rcases Nat.eq_zero_or_pos (i - s.threads.length) with e | p
      · rw [e] at hi; simp at hi
      · rw [List.getElem?_eq_none (by simp only [List.length_singleton]; omega)] at hi
        exact absurd hi (by simp)
  cases st with
  | fire =>
    refine ⟨h01, fun hz i hi => h0 hz i (app i hi), fun ho => ?_,
      fun i j hi hj => huniq i j (app i hi) (app j hj)⟩
    obtain ⟨i, hi⟩ := h1 ho
    have hlt : i < s.threads.length := by
      by_contra hn
      rw [List.getElem?_eq_none (by omega)] at hi
      exact absurd hi (by simp)
    exact ⟨i, by show (s.threads ++ [Pc.entry])[i]? = _; rwa [List.getElem?_append_left hlt]⟩
  | lock_test i =>
    simp only [Sys.step]
    by_cases he : s.threads[i]? = some Pc.entry
    · rw [if_pos he]
      have hlt : i < s.threads.length := by
        by_contra hn
        rw [List.getElem?_eq_none (by omega)] at he
        exact absurd he (by simp)
      rcases h01 with hz | ho
      · have hnone := h0 hz
        refine ⟨Or.inr rfl, fun hc => by simp [test_and_set] at hc, fun _ => ⟨i, ?_⟩, ?_⟩
        · simp [test_and_set, hz, List.getElem?_set, hlt]
        · intro a b ha hb
          have ha' : a = i := by
            by_contra hne
            rw [List.getElem?_set_ne (Ne.symm hne)] at ha
            exact hnone a ha
          have hb' : b = i := by
            by_contra hne
            rw [List.getElem?_set_ne (Ne.symm hne)] at hb
            exact hnone b hb
          rw [ha', hb']
      · have keep : ∀ a : Nat, (s.threads.set i
            (if (test_and_set s.is_record_on).1 ≠ 0 then Pc.session else Pc.returned))[a]?
              = some Pc.session → s.threads[a]? = some Pc.session := by
          intro a ha
          by_cases hai : i = a
          · subst hai
            simp [test_and_set, ho, List.getElem?_set, hlt] at ha
          · rwa [List.getElem?_set_ne hai] at ha
        refine ⟨Or.inr rfl, fun hc => by simp [test_and_set] at hc, fun _ => ?_,
          fun a b ha hb => huniq a b (keep a ha) (keep b hb)⟩
        obtain ⟨j, hj⟩ := h1 ho
        have hji : i ≠ j := by
          intro e
          subst e
          rw [he] at hj
          exact absurd hj (by simp)
        exact ⟨j, by show (s.threads.set i _)[j]? = _; rwa [List.getElem?_set_ne hji]⟩
    · rw [if_neg he]
      exact ⟨h01, h0, h1, huniq⟩
  | lock_clear i =>
    simp only [Sys.step]
    by_cases hs : s.threads[i]? = some Pc.session
    · rw [if_pos hs]
      have hlt : i < s.threads.length := by
        by_contra hn
        rw [List.getElem?_eq_none (by omega)] at hs
        exact absurd hs (by simp)
      have gone : ∀ a : Nat, (s.threads.set i Pc.finished)[a]? ≠ some Pc.session := by
        intro a ha
        by_cases hai : i = a
        · subst hai
          simp [List.getElem?_set, hlt] at ha
        · rw [List.getElem?_set_ne hai] at ha
          exact hai (huniq i a hs ha)
      refine ⟨Or.inl rfl, fun _ => gone, fun hc => by simp [clear_flag] at hc,
        fun a b ha _ => absurd ha (gone a)⟩
    · rw [if_neg hs]
      exact ⟨h01, h0, h1, huniq⟩

theorem Sys.inv_run (schedule : List Step) : Sys.Inv (Sys.run schedule) := by
  induction schedule using List.reverseRecOn with
  | nil => exact Sys.inv_init
  | append_singleton l st ih =>
    have e : Sys.run (l ++ [st]) = (Sys.run l).step st := by
      simp [Sys.run, List.foldl_append]
    rw [e]
    exact Sys.inv_step _ st ih

theorem burst_one (n : Nat) : burst n 1 = List.replicate n 0 := by
  induction n with
  | zero => rfl
  | succ n ih =>
    show (test_and_set 1).1 :: burst n (test_and_set 1).2 = _
    rw [show (test_and_set 1).2 = 1 from rfl, ih]
    rfl

theorem burst_zero (n : Nat) : burst (n + 1) 0 = 1 :: List.replicate n 0 := by
  show (test_and_set 0).1 :: burst n (test_and_set 0).2 = _
  rw [show (test_and_set 0).2 = 1 from rfl, burst_one]
  rfl

theorem motion_handler_busy (w : Nat) (env : Env) (fuel is_record_on t0 : Nat)
    (h : is_record_on ≠ 0) : motion_handler w env fuel is_record_on t0 = some (1, []) := by
  simp [motion_handler, test_and_set, h]

theorem motion_handler_idle_forks (w : Nat) (env : Env) (fuel t0 : Nat)
    (r : Nat × List Action) (h : motion_handler w env fuel 0 t0 = some r) :
    ∃ rest, r.2 = Action.fork :: rest := by
  unfold motion_handler at h
  simp only [test_and_set, if_true] at h
  rw [if_neg (by decide)] at h
  by_cases hp : env.pid = 0
  · rw [if_pos hp] at h
    cases h
    exact ⟨_, rfl⟩
  · rw [if_neg hp] at h
    cases hw : watch w t0 env.events fuel with
    | none => rw [hw] at h; cases h
    | some stop =>
      rw [hw] at h
      cases h
      exact ⟨_, rfl⟩

/-! ## Facts about the watcher loop -/

theorem last_event_mem (t0 : Nat) (events : List Nat) (now : Nat) :
    last_event t0 events now ∈ t0 :: events := by
  induction events generalizing t0 with
  | nil => simp [last_event]
  | cons e es ih =>
    have h := ih (if e ≤ now then e else t0)
    have e1 : last_event t0 (e :: es) now = last_event (if e ≤ now then e else t0) es now := rfl
    rw [e1]
    rcases List.mem_cons.mp h with h | h
    · rw [h]
      split_ifs <;> simp
    · exact List.mem_cons_of_mem _ (List.mem_cons_of_mem _ h)

theorem last_event_le (t0 : Nat) (events : List Nat) (now : Nat) (h0 : t0 ≤ now) :
    last_event t0 events now ≤ now := by
  induction events generalizing t0 with
  | nil => simpa [last_event] using h0
  | cons e es ih =>
    have e1 : last_event t0 (e :: es) now = last_event (if e ≤ now then e else t0) es now := rfl
    rw [e1]
    apply ih
    split_ifs with h
    · exact h
    · exact h0

theorem last_event_latest (t0 : Nat) (events : List Nat) (now : Nat)
    (hs : events.Pairwise (fun a b => a ≤ b)) (hge : ∀ e ∈ events, t0 ≤ e) :
    ∀ x ∈ t0 :: events, x ≤ now → x ≤ last_event t0 events now := by
  induction events generalizing t0 with
  | nil =>
    intro x hx _
    simp only [List.mem_singleton] at hx
    simp [last_event, hx]
  | cons e es ih =>
    have e1 : last_event t0 (e :: es) now = last_event (if e ≤ now then e else t0) es now := rfl
    rw [e1]
    obtain ⟨hhead, htail⟩ := List.pairwise_cons.mp hs
    intro x hx hxn
    by_cases hen : e ≤ now
    · rw [if_pos hen]
      have hE := ih e htail hhead
      rcases List.mem_cons.mp hx with rfl | hz
      · exact le_trans (hge e (List.mem_cons_self e es)) (hE e (List.mem_cons_self e es) hen)
      · exact hE x hz hxn
    · rw [if_neg hen]
      have hT := ih t0 htail (fun y hy => hge y (List.mem_cons_of_mem e hy))
      rcases List.mem_cons.mp hx with rfl | hz
      · exact hT _ (List.mem_cons_self _ es) hxn
      · rcases List.mem_cons.mp hz with rfl | hy
        · exact absurd hxn hen
        · exact hT x (List.mem_cons_of_mem _ hy) hxn

theorem timersub_gettimeofday (a b : Nat) :
    (timersub (gettimeofday b) (gettimeofday a)).tv_sec * 1000000
      + (timersub (gettimeofday b) (gettimeofday a)).tv_usec = (b : Int) - (a : Int) := by
  unfold timersub gettimeofday
  simp only
  split_ifs with h
  · simp only
    push_cast at h ⊢
    omega
  · simp only
    push_cast at h ⊢
    omega

theorem toULong_small (w : Nat) (x : Nat) (hw : 32 ≤ w) (hx : x ≤ 8000000) :
    toULong w (x : Int) = x := by
  have hp : 2 ^ 32 ≤ 2 ^ w := Nat.pow_le_pow_right (by decide) hw
  have hlt : x < 2 ^ w := by
    have : (2 : Nat) ^ 32 = 4294967296 := by norm_num
    omega
  unfold toULong
  have e : ((x : Int) % (2 : Int) ^ w) = ((x % 2 ^ w : Nat) : Int) := by
    push_cast
    rfl
  rw [e, Nat.mod_eq_of_lt hlt]
  simp

theorem watch_loop_step (w : Nat) (last_tv : Nat → Timeval) (fuel now : Nat)
    (used_tv : Timeval) (sleep_us : Nat) :
    watch_loop w last_tv (fuel + 1) now used_tv sleep_us
      = if toULong w ((timersub (last_tv (now + sleep_us)) used_tv).tv_sec * 1000000
            + (timersub (last_tv (now + sleep_us)) used_tv).tv_usec) ≠ 0 then
          watch_loop w last_tv fuel (now + sleep_us) (last_tv (now + sleep_us))
            (toULong w ((timersub (last_tv (now + sleep_us)) used_tv).tv_sec * 1000000
              + (timersub (last_tv (now + sleep_us)) used_tv).tv_usec))
        else some ⟨now + sleep_us, last_tv (now + sleep_us)⟩ := rfl

theorem later_events_mono (events : List Nat) (u u' : Nat) (h : u ≤ u') :
    (events.filter (fun e => decide (u' < e))).length
      ≤ (events.filter (fun e => decide (u < e))).length := by
  induction events with
  | nil => simp
  | cons e es ih =>
    simp only [List.filter_cons]
    by_cases h1 : u' < e
    · have h2 : u < e := by omega
      simp [h1, h2, ih]
    · by_cases h2 : u < e
      · simp only [h1, h2, decide_True, decide_False, List.length_cons, if_true]
        simp only [Bool.false_eq_true, if_false]
        omega
      · simp [h1, h2, ih]

theorem later_events_lt (events : List Nat) (u u' : Nat) (h : u < u') (hm : u' ∈ events) :
    (events.filter (fun e => decide (u' < e))).length
      < (events.filter (fun e => decide (u < e))).length := by
  induction events with
  | nil => simp at hm
  | cons e es ih =>
    simp only [List.filter_cons]
    rcases List.mem_cons.mp hm with rfl | hm'
    · have hmono := later_events_mono es u u' (le_of_lt h)
      have h1 : ¬ u' < u' := lt_irrefl _
      simp only [h1, h, decide_True, decide_False, List.length_cons, if_true]
      simp only [Bool.false_eq_true, if_false]
      omega
    · have ih' := ih hm'
      by_cases h1 : u' < e
      · have h2 : u < e := by omega
        simp [h1, h2, ih']
      · by_cases h2 : u < e
        · simp only [h1, h2, decide_True, decide_False, List.length_cons, if_true]
          simp only [Bool.false_eq_true, if_false]
          omega
        · simp [h1, h2, ih']

/-- The watcher loop, entered so that its next check falls 8 s after the snapshot `u`:
it ends, whatever the fuel above the number of events later than `u`, at a check
that falls 8 s after the value `last_tv` has at that very check, and at no check
time before that were 8 s without an event over. -/
theorem watch_loop_spec (w t0 : Nat) (events : List Nat) (hw : 32 ≤ w)
    (hs : events.Pairwise (fun a b => a ≤ b)) (hge : ∀ e ∈ events, t0 ≤ e) :
    ∀ n now u s,
      (events.filter (fun e => decide (u < e))).length ≤ n →
      now + s = u + 8000000 → u ∈ t0 :: events →
      (∀ T, t0 + 8000000 ≤ T → T < now + s →
        ∃ e ∈ t0 :: events, e ≤ T ∧ T < e + 8000000) →
      ∃ r : Watch,
        (∀ fuel, n < fuel →
          watch_loop w (last_tv_at t0 events) fuel now (gettimeofday u) s = some r) ∧
        r.used_tv = last_tv_at t0 events r.now ∧
        r.now = last_event t0 events r.now + 8000000 ∧
        (∀ T, t0 + 8000000 ≤ T → T < r.now →
          ∃ e ∈ t0 :: events, e ≤ T ∧ T < e + 8000000) := by
  intro n
  induction n with
  | zero =>
    intro now u s hcount hnow hu hquiet
    have ht0u : t0 ≤ u := by
      rcases List.mem_cons.mp hu with rfl | h
      · exact le_refl _
      · exact hge u h
    have hle := last_event_le t0 events (now + s) (by omega)
    have hlatest := last_event_latest t0 events (now + s) hs hge u hu (by omega)
    have hmem := last_event_mem t0 events (now + s)
    have heq : last_event t0 events (now + s) = u := by
      by_contra hne
      have hlt : u < last_event t0 events (now + s) := by omega
      have hin : last_event t0 events (now + s) ∈ events := by
        rcases List.mem_cons.mp hmem with h | h
        · omega
        · exact h
      have := later_events_lt events u _ hlt hin
      omega
    refine ⟨⟨now + s, last_tv_at t0 events (now + s)⟩, ?_, rfl, ?_, hquiet⟩
    · intro fuel hfuel
      obtain ⟨f, rfl⟩ : ∃ f, fuel = f + 1 := ⟨fuel - 1, by omega⟩
      rw [watch_loop_step]
      have hd : (timersub (last_tv_at t0 events (now + s)) (gettimeofday u)).tv_sec * 1000000
          + (timersub (last_tv_at t0 events (now + s)) (gettimeofday u)).tv_usec
            = ((0 : Nat) : Int) := by
        unfold last_tv_at
        rw [heq, timersub_gettimeofday]
        simp
      rw [hd, toULong_small w 0 hw (by omega)]
      simp
    · show now + s = last_event t0 events (now + s) + 8000000
      omega
  | succ n ih =>
    intro now u s hcount hnow hu hquiet
    have ht0u : t0 ≤ u := by
      rcases List.mem_cons.mp hu with rfl | h
      · exact le_refl _
      · exact hge u h
    have hle := last_event_le t0 events (now + s) (by omega)
    have hlatest := last_event_latest t0 events (now + s) hs hge u hu (by omega)
    have hmem := last_event_mem t0 events (now + s)
    have hd : (timersub (last_tv_at t0 events (now + s)) (gettimeofday u)).tv_sec * 1000000
        + (timersub (last_tv_at t0 events (now + s)) (gettimeofday u)).tv_usec
          = ((last_event t0 events (now + s) - u : Nat) : Int) := by
      unfold last_tv_at
      rw [timersub_gettimeofday]
      omega
    have hsmall := toULong_small w (last_event t0 events (now + s) - u) hw (by omega)
    by_cases heq : last_event t0 events (now + s) = u
    · refine ⟨⟨now + s, last_tv_at t0 events (now + s)⟩, ?_, rfl, ?_, hquiet⟩
      · intro fuel hfuel
        obtain ⟨f, rfl⟩ : ∃ f, fuel = f + 1 := ⟨fuel - 1, by omega⟩
        rw [watch_loop_step, hd, hsmall, heq]
        simp
      · show now + s = last_event t0 events (now + s) + 8000000
        omega
    · have hlt : u < last_event t0 events (now + s) := by omega
      have hin : last_event t0 events (now + s) ∈ events := by
        rcases List.mem_cons.mp hmem with h | h
        · omega
        · exact h
      have hdec := later_events_lt events u _ hlt hin
      obtain ⟨r, hr1, hr2, hr3, hr4⟩ :=
        ih (now + s) (last_event t0 events (now + s)) (last_event t0 events (now + s) - u)
          (by omega) (by omega) hmem
          (by
            intro T hT1 hT2
            by_cases hTc : T < now + s
            · exact hquiet T hT1 hTc
            · exact ⟨_, hmem, by omega, by omega⟩)
      refine ⟨r, ?_, hr2, hr3, hr4⟩
      intro fuel hfuel
      obtain ⟨f, rfl⟩ : ∃ f, fuel = f + 1 := ⟨fuel - 1, by omega⟩
      rw [watch_loop_step, hd, hsmall, if_pos (by omega)]
      exact hr1 f (by omega)

/-- The watcher of a handler fired at `t0`: see `watch_loop_spec`. -/
theorem watch_spec (w t0 : Nat) (events : List Nat) (hw : 32 ≤ w)
    (hs : events.Pairwise (fun a b => a ≤ b)) (hge : ∀ e ∈ events, t0 ≤ e) :
    ∃ r : Watch,
      (∀ fuel, events.length < fuel → watch w t0 events fuel = some r) ∧
      r.used_tv = last_tv_at t0 events r.now ∧
      r.now = last_event t0 events r.now + 8000000 ∧
      (∀ T, t0 + 8000000 ≤ T → T < r.now →
        ∃ e ∈ t0 :: events, e ≤ T ∧ T < e + 8000000) := by
  have h := watch_loop_spec w t0 events hw hs hge events.length (t0 + 8000000) t0 0
    (List.length_filter_le _ _) (by omega) (List.mem_cons_self _ _)
    (fun T h1 h2 => by omega)
  exact h

theorem motion_handler_session (w : Nat) (env : Env) (fuel t0 : Nat) (stop : Watch)
    (hpid : env.pid ≠ 0) (hwatch : watch w t0 env.events fuel = some stop) :
    motion_handler w env fuel 0 t0
      = some (0, Action.fork :: Action.kill env.pid SIGINT stop.now :: Action.sync ::
          (ensure_free_space w env.dir env.mem env.stat env.malloc_null).map Action.remove) := by
  unfold motion_handler
  simp only [test_and_set, if_true]
  rw [if_neg (by decide), if_neg hpid, hwatch]
  rfl

/-! ## C2: the stop comes 8 s after the last motion seen -/

/-- C2: with `sleep` and `usleep` lasting exactly what is asked and checks taking no
time, for motion events at non-decreasing times from the trigger `t0` on, the watcher
loop ends (with every fuel above the number of events, at one and the same state `r`)
at a check where `last_tv` equals the snapshot, exactly `FIRST_SLEEP_SECONDS` after
the latest event written by then; at no earlier time from `t0 + 8 s` on had 8 s passed
without an event, and the handler issues `kill` at that time. With no further event
after `t0 = 0` the stop is at 8 s; with events at 2 s and 5 s it is at 13 s. -/
theorem C2_debounce (w t0 : Nat) (events : List Nat) (hw : 32 ≤ w)
    (hs : events.Pairwise (fun a b => a ≤ b)) (hge : ∀ e ∈ events, t0 ≤ e) :
    (∃ r : Watch,
      (∀ fuel, events.length < fuel → watch w t0 events fuel = some r) ∧
      r.used_tv = last_tv_at t0 events r.now ∧
      r.now = last_event t0 events r.now + FIRST_SLEEP_SECONDS * 1000000 ∧
      last_event t0 events r.now ∈ t0 :: events ∧
      (∀ e ∈ t0 :: events, e ≤ r.now → e ≤ last_event t0 events r.now) ∧
      (∀ T, t0 + FIRST_SLEEP_SECONDS * 1000000 ≤ T → T < r.now →
        ∃ e ∈ t0 :: events, e ≤ T ∧ T < e + FIRST_SLEEP_SECONDS * 1000000) ∧
      (∀ (env : Env) (fuel : Nat), env.events = events → env.pid ≠ 0 →
        events.length < fuel →
        ∃ rest, motion_handler w env fuel 0 t0
          = some (0, Action.fork :: Action.kill env.pid SIGINT r.now :: rest))) ∧
      (∀ fuel, 0 < fuel → watch w 0 [] fuel = some ⟨8000000, ⟨0, 0⟩⟩) ∧
      (∀ fuel, 2 < fuel →
        watch w 0 [2000000, 5000000] fuel = some ⟨13000000, ⟨5, 0⟩⟩) := by
  refine ⟨?_, ?_, ?_⟩
  · obtain ⟨r, h1, h2, h3, h4⟩ := watch_spec w t0 events hw hs hge
    refine ⟨r, h1, h2, h3, last_event_mem _ _ _,
      last_event_latest t0 events r.now hs hge, h4, ?_⟩
    intro env fuel he hpid hfuel
    have hwatch : watch w t0 env.events fuel = some r := by
      rw [he]
      exact h1 fuel hfuel
    exact ⟨_, motion_handler_session w env fuel t0 r hpid hwatch⟩
  · obtain ⟨r, h1, h2, h3, _⟩ := watch_spec w 0 [] hw List.Pairwise.nil (by simp)
    intro fuel hfuel
    rw [h1 fuel (by simpa using hfuel)]
    obtain ⟨rnow, rused⟩ := r
    simp only [last_event, last_tv_at, List.foldl_nil] at h2 h3
    subst h3
    subst h2
    rfl
  · obtain ⟨r, h1, h2, h3, _⟩ := watch_spec w 0 [2000000, 5000000] hw (by simp) (by simp)
    intro fuel hfuel
    rw [h1 fuel (by simpa using hfuel)]
    have hnow : r.now = 13000000 := by
      simp only [last_event, List.foldl_cons, List.foldl_nil] at h3
      split_ifs at h3 <;> omega
    have hused : r.used_tv = ⟨5, 0⟩ := by
      rw [h2, hnow]
      decide
    obtain ⟨rnow, rused⟩ := r
    simp only at hnow hused
    rw [hnow, hused]

/-- C2 at the events 2 s and 5 s after a trigger at 0, with a 32-bit `unsigned long`. -/
theorem C2_debounce_witness :
    (32 ≤ 32) ∧ [2000000, 5000000].Pairwise (fun a b => a ≤ b) ∧
    (∀ e ∈ [2000000, 5000000], 0 ≤ e) ∧
    ((∃ r : Watch,
      (∀ fuel, [2000000, 5000000].length < fuel →
        watch 32 0 [2000000, 5000000] fuel = some r) ∧
      r.used_tv = last_tv_at 0 [2000000, 5000000] r.now ∧
      r.now = last_event 0 [2000000, 5000000] r.now + FIRST_SLEEP_SECONDS * 1000000 ∧
      last_event 0 [2000000, 5000000] r.now ∈ 0 :: [2000000, 5000000] ∧
      (∀ e ∈ 0 :: [2000000, 5000000], e ≤ r.now →
        e ≤ last_event 0 [2000000, 5000000] r.now) ∧
      (∀ T, 0 + FIRST_SLEEP_SECONDS * 1000000 ≤ T → T < r.now →
        ∃ e ∈ 0 :: [2000000, 5000000], e ≤ T ∧ T < e + FIRST_SLEEP_SECONDS * 1000000) ∧
      (∀ (env : Env) (fuel : Nat), env.events = [2000000, 5000000] → env.pid ≠ 0 →
        [2000000, 5000000].length < fuel →
        ∃ rest, motion_handler 32 env fuel 0 0
          = some (0, Action.fork :: Action.kill env.pid SIGINT r.now :: rest))) ∧
      (∀ fuel, 0 < fuel → watch 32 0 [] fuel = some ⟨8000000, ⟨0, 0⟩⟩) ∧
      (∀ fuel, 2 < fuel →
        watch 32 0 [2000000, 5000000] fuel = some ⟨13000000, ⟨5, 0⟩⟩)) :=
  ⟨by decide, by decide, by decide,
    C2_debounce 32 0 [2000000, 5000000] (by decide) (by decide) (by decide)⟩

/-! ## C8: the flag after a failed `fork` -/

/-- C8: an invocation that finds the flag at 0 and whose `fork` returns -1 takes the
`else` branch of line 120 like a parent would, so it returns (the watcher loop ends for
motion events at non-decreasing times from `t0` on) with `is_record_on` back at 0; the
next invocation then sees `should_record` true and calls `fork`. -/
theorem C8_flag_cleared_after_failed_fork (w : Nat) (env : Env) (fuel t0 : Nat)
    (hw : 32 ≤ w) (hs : env.events.Pairwise (fun a b => a ≤ b))
    (hge : ∀ e ∈ env.events, t0 ≤ e) (hpid : env.pid = -1)
    (hfuel : env.events.length < fuel) :
    ∃ (flag : Nat) (acts : List Action),
      motion_handler w env fuel 0 t0 = some (flag, acts) ∧ flag = 0 ∧
      (test_and_set flag).1 = 1 ∧
      (∀ (env2 : Env) (fuel2 t1 : Nat) (r2 : Nat × List Action),
        motion_handler w env2 fuel2 flag t1 = some r2 → ∃ rest, r2.2 = Action.fork :: rest) := by
  obtain ⟨r, h1, _⟩ := watch_spec w t0 env.events hw hs hge
  have hne : env.pid ≠ 0 := by rw [hpid]; decide
  exact ⟨0, _, motion_handler_session w env fuel t0 r hne (h1 fuel hfuel), rfl, rfl,
    fun env2 fuel2 t1 r2 h => motion_handler_idle_forks w env2 fuel2 t1 r2 h⟩

/-- C8 at a failed `fork` with one more motion event 3 s after the trigger. -/
theorem C8_flag_cleared_after_failed_fork_witness :
    (32 ≤ 32) ∧ [3000000].Pairwise (fun a b => a ≤ b) ∧ (∀ e ∈ [3000000], 0 ≤ e) ∧
    ((-1 : Int) = -1) ∧ [3000000].length < 2 ∧
    ∃ (flag : Nat) (acts : List Action),
      motion_handler 32 ⟨⟨0, 0⟩, [3000000], -1, false, none, fun _ => [], fun _ => ⟨0, 0⟩, false⟩ 2 0 0
        = some (flag, acts) ∧ flag = 0 ∧
      (test_and_set flag).1 = 1 ∧
      (∀ (env2 : Env) (fuel2 t1 : Nat) (r2 : Nat × List Action),
        motion_handler 32 env2 fuel2 flag t1 = some r2 → ∃ rest, r2.2 = Action.fork :: rest) :=
  ⟨by decide, by decide, by decide, rfl, by decide,
    C8_flag_cleared_after_failed_fork 32
      ⟨⟨0, 0⟩, [3000000], -1, false, none, fun _ => [], fun _ => ⟨0, 0⟩, false⟩ 2 0
      (by decide) (by decide) (by decide) rfl (by decide)⟩

/-! ## C9: the signal after a failed `fork` -/

/-- C9 fails on the code: when `fork` returns -1 the handler, which tests `pid == 0`
only, waits as for a running recorder and then calls `kill(-1, SIGINT)`, 8 s after
the trigger when no other motion comes; no child was spawned and -1 is not the pid
of one. -/
theorem C9_failed_fork_still_kills :
    motion_handler 32 ⟨⟨0, 0⟩, [], -1, false, none, fun _ => [], fun _ => ⟨0, 0⟩, false⟩ 1 0 0
      = some (0, [Action.fork, Action.kill (-1) SIGINT 8000000, Action.sync]) := by
  decide

/-! ## C1: one session at a time -/

/-- An invocation that finds the flag at 0 calls `fork`, once: with motion events at
non-decreasing times from `t0` on and fuel above their number the handler returns and
its actions are `fork` followed by actions that are no `fork`. -/
theorem motion_handler_idle (w : Nat) (env : Env) (fuel t0 : Nat) (hw : 32 ≤ w)
    (hs : env.events.Pairwise (fun a b => a ≤ b)) (hge : ∀ e ∈ env.events, t0 ≤ e)
    (hfuel : env.events.length < fuel) :
    ∃ (flag : Nat) (acts : List Action),
      motion_handler w env fuel 0 t0 = some (flag, Action.fork :: acts) ∧
        Action.fork ∉ acts := by
  by_cases hp : env.pid = 0
  · refine ⟨1, Action.execv RPIVID_PATH (session_filename env.start_tv (gettimeofday t0)) ::
      (if env.execv_fails then [Action.printf_execv_error] else []), ?_, ?_⟩
    · unfold motion_handler
      simp only [test_and_set, if_true]
      rw [if_neg (by decide), if_pos hp]
    · cases env.execv_fails <;> simp
  · obtain ⟨r, h1, _⟩ := watch_spec w t0 env.events hw hs hge
    refine ⟨0, _, motion_handler_session w env fuel t0 r hp (h1 fuel hfuel), ?_⟩
    simp

theorem burst_run_busy (w : Nat) (others : List (Env × Nat × Nat)) :
    burst_run w others 1 = List.replicate others.length (some (1, [])) := by
  induction others with
  | nil => rfl
  | cons inv rest ih =>
    obtain ⟨env, fuel, t0⟩ := inv
    show motion_handler w env fuel 1 t0 :: burst_run w rest (test_and_set 1).2 = _
    rw [motion_handler_busy w env fuel 1 t0 (by decide), show (test_and_set 1).2 = 1 from rfl,
      ih]
    rfl

/-- C1: with each critical section as one atomic step, in the state reached from
`is_record_on = 0` by any schedule of interrupts, test-and-set steps and clear steps,
two invocations on the session path are the same one, and the flag is 0 exactly when
there is none. An invocation `i` about to run the first critical section in any state
`s` enters the session path iff it finds the flag at 0. The handler itself, whatever
flag it finds, returns (motion events at non-decreasing times from `t0` on, fuel above
their number) and has called `fork` iff the flag it found was 0; with a flag other
than 0 it returns with no action at all. `N >= 1` test-and-set steps in a row from
flag 0 see `should_record` as 1 once, in the first, and as 0 in the `N - 1` others;
and in a burst of invocations from flag 0 the first one calls `fork`, exactly once,
while every other one returns without any action. -/
theorem C1_single_session (schedule : List Step) (s : Sys) (i j N w : Nat) (env : Env)
    (fuel flag t0 : Nat) (others : List (Env × Nat × Nat)) (hN : 1 ≤ N) (hw : 32 ≤ w)
    (hs : env.events.Pairwise (fun a b => a ≤ b)) (hge : ∀ e ∈ env.events, t0 ≤ e)
    (hfuel : env.events.length < fuel) :
    ((Sys.run schedule).threads[i]? = some Pc.session →
        (Sys.run schedule).threads[j]? = some Pc.session → i = j) ∧
      ((Sys.run schedule).is_record_on = 0 ↔
        ∀ a : Nat, (Sys.run schedule).threads[a]? ≠ some Pc.session) ∧
      (s.threads[i]? = some Pc.entry →
        ((s.step (Step.lock_test i)).threads[i]? = some Pc.session ↔ s.is_record_on = 0)) ∧
      (∃ r : Nat × List Action,
        motion_handler w env fuel flag t0 = some r ∧ (Action.fork ∈ r.2 ↔ flag = 0)) ∧
      (∀ (w2 : Nat) (env2 : Env) (fuel2 flag2 t2 : Nat), flag2 ≠ 0 →
        motion_handler w2 env2 fuel2 flag2 t2 = some (1, [])) ∧
      burst N 0 = 1 :: List.replicate (N - 1) 0 ∧
      ((burst N 0).filter (fun should_record => decide (should_record ≠ 0))).length = 1 ∧
      (∃ (flag1 : Nat) (acts : List Action),
        burst_run w ((env, fuel, t0) :: others) 0
          = some (flag1, Action.fork :: acts) ::
              List.replicate others.length (some (1, [])) ∧
        Action.fork ∉ acts) := by
  obtain ⟨h01, h0, h1, huniq⟩ := Sys.inv_run schedule
  have hb : burst N 0 = 1 :: List.replicate (N - 1) 0 := by
    obtain ⟨n, rfl⟩ : ∃ n, N = n + 1 := ⟨N - 1, by omega⟩
    exact burst_zero n
  obtain ⟨flag1, acts, hidle, hnofork⟩ := motion_handler_idle w env fuel t0 hw hs hge hfuel
  refine ⟨huniq i j, ⟨h0, fun hnone => ?_⟩, fun he => ?_, ?_, motion_handler_busy, hb,
    ?_, ?_⟩
  · rcases h01 with hz | ho
    · exact hz
    · obtain ⟨a, ha⟩ := h1 ho
      exact absurd ha (hnone a)
  · have hlt : i < s.threads.length := by
      by_contra hn
      rw [List.getElem?_eq_none (by omega)] at he
      exact absurd he (by simp)
    by_cases hz : s.is_record_on = 0
    · simp [Sys.step, he, test_and_set, hz, List.getElem?_set, hlt]
    · simp [Sys.step, he, test_and_set, hz, List.getElem?_set, hlt]
  · by_cases hz : flag = 0
    · subst hz
      exact ⟨_, hidle, by simp⟩
    · exact ⟨_, motion_handler_busy w env fuel flag t0 hz, by simp [hz]⟩
  · rw [hb]
    simp [List.filter_cons, List.filter_replicate]
  · refine ⟨flag1, acts, ?_, hnofork⟩
    show motion_handler w env fuel 0 t0 :: burst_run w others (test_and_set 0).2 = _
    rw [hidle, show (test_and_set 0).2 = 1 from rfl, burst_run_busy]

/-- C1 at three interrupts whose handlers run the critical section in the order
2, 0, 1, and at a burst of three handlers of which the first gets pid 1234 from
`fork` and sees one more motion after 2 s. -/
theorem C1_single_session_witness :
    (1 ≤ 3) ∧ (32 ≤ 32) ∧ [2000000].Pairwise (fun a b => a ≤ b) ∧
    (∀ e ∈ [2000000], 0 ≤ e) ∧ [2000000].length < 2 ∧
    (((Sys.run [Step.fire, Step.fire, Step.fire, Step.lock_test 2, Step.lock_test 0,
          Step.lock_test 1]).threads[2]? = some Pc.session →
        (Sys.run [Step.fire, Step.fire, Step.fire, Step.lock_test 2, Step.lock_test 0,
          Step.lock_test 1]).threads[0]? = some Pc.session → 2 = 0) ∧
      ((Sys.run [Step.fire, Step.fire, Step.fire, Step.lock_test 2, Step.lock_test 0,
          Step.lock_test 1]).is_record_on = 0 ↔
        ∀ a : Nat, (Sys.run [Step.fire, Step.fire, Step.fire, Step.lock_test 2, Step.lock_test 0,
          Step.lock_test 1]).threads[a]? ≠ some Pc.session) ∧
      ((⟨0, [Pc.finished, Pc.returned, Pc.entry]⟩ : Sys).threads[2]? = some Pc.entry →
        (((⟨0, [Pc.finished, Pc.returned, Pc.entry]⟩ : Sys).step (Step.lock_test 2)).threads[2]? = some Pc.session ↔
          (⟨0, [Pc.finished, Pc.returned, Pc.entry]⟩ : Sys).is_record_on = 0)) ∧
      (∃ r : Nat × List Action,
        motion_handler 32 (⟨⟨0, 0⟩, [2000000], 1234, false, none, fun _ => [], fun _ => ⟨0, 0⟩, false⟩ : Env)
          2 0 0 = some r ∧ (Action.fork ∈ r.2 ↔ 0 = 0)) ∧
      (∀ (w2 : Nat) (env2 : Env) (fuel2 flag2 t2 : Nat), flag2 ≠ 0 →
        motion_handler w2 env2 fuel2 flag2 t2 = some (1, [])) ∧
      burst 3 0 = 1 :: List.replicate (3 - 1) 0 ∧
      ((burst 3 0).filter (fun should_record => decide (should_record ≠ 0))).length = 1 ∧
      (∃ (flag1 : Nat) (acts : List Action),
        burst_run 32
          (((⟨⟨0, 0⟩, [2000000], 1234, false, none, fun _ => [], fun _ => ⟨0, 0⟩, false⟩ : Env), 2, 0) ::
            [((⟨⟨0, 0⟩, [2000000], 1234, false, none, fun _ => [], fun _ => ⟨0, 0⟩, false⟩ : Env), 0, 1000),
          ((⟨⟨0, 0⟩, [2000000], 1234, false, none, fun _ => [], fun _ => ⟨0, 0⟩, false⟩ : Env), 0, 2000)]) 0
          = some (flag1, Action.fork :: acts) ::
              List.replicate
                ([((⟨⟨0, 0⟩, [2000000], 1234, false, none, fun _ => [], fun _ => ⟨0, 0⟩, false⟩ : Env), 0, 1000),
          ((⟨⟨0, 0⟩, [2000000], 1234, false, none, fun _ => [], fun _ => ⟨0, 0⟩, false⟩ : Env), 0, 2000)] : List (Env × Nat × Nat)).length
                (some (1, [])) ∧
        Action.fork ∉ acts)) :=
  ⟨by decide, by decide, by decide, by decide, by decide,
    C1_single_session
      [Step.fire, Step.fire, Step.fire, Step.lock_test 2, Step.lock_test 0,
          Step.lock_test 1]
      ⟨0, [Pc.finished, Pc.returned, Pc.entry]⟩ 2 0 3 32
      (⟨⟨0, 0⟩, [2000000], 1234, false, none, fun _ => [], fun _ => ⟨0, 0⟩, false⟩ : Env)
      2 0 0
      [((⟨⟨0, 0⟩, [2000000], 1234, false, none, fun _ => [], fun _ => ⟨0, 0⟩, false⟩ : Env), 0, 1000),
          ((⟨⟨0, 0⟩, [2000000], 1234, false, none, fun _ => [], fun _ => ⟨0, 0⟩, false⟩ : Env), 0, 2000)]
      (by decide) (by decide) (by decide) (by decide) (by decide)⟩

end MotionDetect
